import Mathlib

/-!
Verification of the transaction-pool core in `src/lib.rs`.

The embedding mirrors the Rust source:
* `RichTransaction` keeps the fields the pool logic reads: the wire nonce
  (a `U256`, modelled as an unbounded `Nat`; the pool only admits values
  at most `u64::MAX`), `gas_price`, `gas_limit` (both `U256`, modelled as
  `Nat`; the claims below only exercise in-range values), the recovered
  `sender` address and the canonical `hash` (both modelled as `Nat` keys;
  hashing and signature recovery are external collaborators per the spec
  and the pool treats both as opaque keys).
* `HashMap` fields are modelled as association lists with at most one
  entry per key; insertion of a fresh key appends at the end, updating an
  existing key rewrites it in place, so states compare structurally.
* `u64` arithmetic that can panic in debug builds (`self.block - 1`,
  `self.block + 1`, `nonce_offset += 1`) and failed `assert!`s are
  modelled by an `Option` layer: `none` means the call aborts.
* `U256` subtraction at the prefix-balance fold is modelled by truncating
  `Nat` subtraction; under the spec's prefix-balance invariant the source
  fold never underflows, and the concrete states used below never do.
* The asynchronous `AccountInfoProvider` is passed as a function argument
  `Nat → Nat → Option AccountInfo` (block, address); both a lookup `Err`
  and an `Ok(None)` surface as `ImportError::InvalidSender`, so the two
  are collapsed into `none`.
-/

/-- `u64::MAX`, the largest nonce the pool accepts (`lib.rs` line 155). -/
def U64MAX : Nat := 18446744073709551615

/-- The fields of `RichTransaction` that the pool logic reads.
Enrichment (RLP hashing, signature recovery) is an external collaborator;
`hash` and `sender` stand for its outputs. -/
structure RichTransaction where
  nonce : Nat
  gas_price : Nat
  gas_limit : Nat
  sender : Nat
  hash : Nat
deriving DecidableEq, Repr

/-- `RichTransaction::cost`: `gas_limit * gas_price` (`lib.rs` lines 30-32). -/
def RichTransaction.cost (t : RichTransaction) : Nat :=
  t.gas_limit * t.gas_price

/-- `AccountInfo` (`lib.rs` lines 71-75). -/
structure AccountInfo where
  balance : Nat
  nonce : Nat
deriving DecidableEq, Repr

/-- `ImportError` (`lib.rs` lines 104-120); payloads of the error strings
are dropped. -/
inductive ImportError where
  | InvalidTransaction
  | NonceGap
  | StaleTransaction
  | InvalidSender
  | FeeTooLow
  | InsufficientBalance
  | Other
deriving DecidableEq, Repr

/-- `AccountPool` (`lib.rs` lines 122-126): per-sender queue with the
confirmed-nonce and confirmed-balance snapshot. -/
structure AccountPool where
  nonce_offset : Nat
  balance : Nat
  txs : List RichTransaction
deriving DecidableEq, Repr

/-- `Pool` (`lib.rs` lines 128-133).  The provider handle is passed to the
operations as a function argument instead of being stored, so that states
are first-order data and compare decidably. -/
structure Pool where
  block : Nat
  by_hash : List (Nat × RichTransaction)
  by_sender : List (Nat × AccountPool)
deriving DecidableEq, Repr

/-- `HashMap::get`: first (and, with unique keys, only) binding of `k`. -/
def lookupKey {α : Type} : List (Nat × α) → Nat → Option α
  | [], _ => none
  | (k2, v) :: r, k => if k2 = k then some v else lookupKey r k

/-- `HashMap::insert`: rewrite the binding of `k` in place, or append a
fresh binding at the end. -/
def setKey {α : Type} : List (Nat × α) → Nat → α → List (Nat × α)
  | [], k, v => [(k, v)]
  | (k2, w) :: r, k, v => if k2 = k then (k2, v) :: r else (k2, w) :: setKey r k v

/-- `HashMap::remove`: drop the binding of `k` (the first one; keys are
unique in every reachable state). -/
def eraseKey {α : Type} : List (Nat × α) → Nat → List (Nat × α)
  | [], _ => []
  | (k2, v) :: r, k => if k2 = k then r else (k2, v) :: eraseKey r k

/-- The tail-revalidation loop of `Pool::import` (`lib.rs` lines 217-227):
walk the queue subtracting each `cost` from the running balance via
`checked_sub`; at the first unaffordable transaction `split_off` the rest.
Returns (kept, dropped). -/
def splitAffordable : Nat → List RichTransaction → List RichTransaction × List RichTransaction
  | _, [] => ([], [])
  | bal, t :: r =>
    if t.cost ≤ bal then
      ((splitAffordable (bal - t.cost) r).1.cons t, (splitAffordable (bal - t.cost) r).2)
    else ([], t :: r)

/-- The slot logic of `Pool::import` (`lib.rs` lines 187-242), entered with
the sender's `AccountPool` entry `ap` already present in `p.by_sender`.
Mirrors the source faithfully, including its two slips: after the
`std::mem::swap` the *replaced* transaction is what gets inserted under the
*new* transaction's hash (line 229), and in the append case
(`offset == txs.len()`) the transaction is inserted into `by_hash` but
never pushed onto the queue and its own cost is never checked. -/
def importSlot (p : Pool) (tx : RichTransaction) (ap : AccountPool) :
    Except ImportError Bool × Pool :=
  if tx.nonce < ap.nonce_offset then
    (.error .StaleTransaction, p)
  else if tx.nonce - ap.nonce_offset ≤ ap.txs.length then
    match ap.txs.get? (tx.nonce - ap.nonce_offset) with
    | some pooled =>
      if tx.gas_price ≤ pooled.gas_price then (.error .FeeTooLow, p)
      else if (ap.txs.take (tx.nonce - ap.nonce_offset)).foldl
          (fun b t => b - t.cost) ap.balance < tx.cost then
        (.error .InsufficientBalance, p)
      else
        (.ok true,
          { p with
            by_hash :=
              (splitAffordable
                ((ap.txs.take (tx.nonce - ap.nonce_offset)).foldl
                  (fun b t => b - t.cost) ap.balance)
                ((ap.txs.set (tx.nonce - ap.nonce_offset) tx).drop
                  (tx.nonce - ap.nonce_offset))).2.foldl
                (fun bh t => eraseKey bh t.hash)
                (setKey p.by_hash tx.hash pooled),
            by_sender :=
              setKey p.by_sender tx.sender
                { ap with
                  txs :=
                    (ap.txs.set (tx.nonce - ap.nonce_offset) tx).take
                        (tx.nonce - ap.nonce_offset) ++
                      (splitAffordable
                        ((ap.txs.take (tx.nonce - ap.nonce_offset)).foldl
                          (fun b t => b - t.cost) ap.balance)
                        ((ap.txs.set (tx.nonce - ap.nonce_offset) tx).drop
                          (tx.nonce - ap.nonce_offset))).1 } })
    | none =>
      (.ok true,
        { p with
          by_hash := setKey p.by_hash tx.hash tx,
          by_sender := setKey p.by_sender tx.sender ap })
  else
    (.error .NonceGap, p)

/-- `Pool::import` (`lib.rs` lines 151-245).  Returns the `Result` together
with the post-state (the Rust method mutates `self` even on some error
paths: resolving a previously-unknown sender inserts an empty
`AccountPool` before the nonce checks run). -/
def Pool.importTx (provider : Nat → Nat → Option AccountInfo) (p : Pool)
    (tx : RichTransaction) : Except ImportError Bool × Pool :=
  if tx.nonce > U64MAX then (.error .InvalidTransaction, p)
  else
    match lookupKey p.by_hash tx.hash with
    | some _ => (.ok false, p)
    | none =>
      match lookupKey p.by_sender tx.sender with
      | some ap => importSlot p tx ap
      | none =>
        match provider p.block tx.sender with
        | none => (.error .InvalidSender, p)
        | some info =>
          importSlot
            { p with
              by_sender :=
                setKey p.by_sender tx.sender ⟨info.nonce, info.balance, []⟩ }
            tx ⟨info.nonce, info.balance, []⟩

/-- `Pool::erase` (`lib.rs` lines 247-250). -/
def Pool.erase (p : Pool) : Pool :=
  { p with by_hash := [], by_sender := [] }

/-- One step of grouping a block's transactions by sender
(`lib.rs` lines 261-276).  A sender whose block transaction carries a
nonce above `u64::MAX` is poisoned (`none`); otherwise the transaction is
recorded in the sender's nonce-ordered map. -/
def groupStep (acc : List (Nat × Option (List (Nat × RichTransaction))))
    (t : RichTransaction) : List (Nat × Option (List (Nat × RichTransaction))) :=
  let acc1 := if t.nonce > U64MAX then setKey acc t.sender none else acc
  match lookupKey acc1 t.sender with
  | some none => acc1
  | some (some m) => setKey acc1 t.sender (some (insertNonce t.nonce t m))
  | none => setKey acc1 t.sender (some [(t.nonce, t)])
where
  /-- `BTreeMap::insert`: keep the list sorted by nonce, replacing an
  existing binding of the same nonce. -/
  insertNonce (n : Nat) (v : RichTransaction) :
      List (Nat × RichTransaction) → List (Nat × RichTransaction)
    | [] => [(n, v)]
    | (m, u) :: r =>
      if n < m then (n, v) :: (m, u) :: r
      else if n = m then (n, v) :: r
      else (m, u) :: insertNonce n v r

/-- The per-sender culling walk of `Pool::apply_block_inner`
(`lib.rs` lines 282-304).  Mirrors the source's statement order: the front
is popped, then `assert!(self.by_hash.remove(&tx.hash).is_some())` fires
on the *block* transaction's hash (a failed assertion is `none`, i.e. the
call aborts), and only afterwards are the hashes compared.  Returns the
new hash index, the mutated account pool and the `validation_error` flag. -/
def cullSender (bh : List (Nat × RichTransaction)) (pool : AccountPool) :
    List (Nat × RichTransaction) →
    Option (List (Nat × RichTransaction) × AccountPool × Bool)
  | [] => some (bh, pool, false)
  | (nonce, t) :: rest =>
    if nonce ≠ pool.nonce_offset then some (bh, pool, true)
    else
      match pool.txs with
      | [] => some (bh, pool, true)
      | front :: qrest =>
        match lookupKey bh t.hash with
        | none => none
        | some _ =>
          if front.hash ≠ t.hash then
            some (eraseKey bh t.hash, { pool with txs := qrest }, true)
          else if pool.nonce_offset + 1 > U64MAX then none
          else
            cullSender (eraseKey bh t.hash)
              { pool with txs := qrest, nonce_offset := pool.nonce_offset + 1 } rest

/-- Dropping a sender's remaining queue (`lib.rs` lines 310-313 and
345-348): each hash must be indexed, else the `assert!` aborts. -/
def dropAll (bh : List (Nat × RichTransaction)) :
    List RichTransaction → Option (List (Nat × RichTransaction))
  | [] => some bh
  | t :: r =>
    match lookupKey bh t.hash with
    | none => none
    | some _ => dropAll (eraseKey bh t.hash) r

/-- The sender-processing loop of `Pool::apply_block_inner`
(`lib.rs` lines 279-316).  The Rust `HashMap` iteration order is
unspecified; the model iterates the grouped senders in first-insertion
order (the claims below only exercise single-sender blocks, for which the
order is irrelevant). -/
def processSenders (bh : List (Nat × RichTransaction)) (bs : List (Nat × AccountPool)) :
    List (Nat × Option (List (Nat × RichTransaction))) →
    Option (List (Nat × RichTransaction) × List (Nat × AccountPool))
  | [] => some (bh, bs)
  | (sender, g) :: rest =>
    match lookupKey bs sender with
    | none => processSenders bh bs rest
    | some pool =>
      match g with
      | none =>
        match dropAll bh pool.txs with
        | none => none
        | some bh2 => processSenders bh2 (eraseKey bs sender) rest
      | some grp =>
        match cullSender bh pool grp with
        | none => none
        | some (bh2, pool2, verr) =>
          if verr then
            match dropAll bh2 pool2.txs with
            | none => none
            | some bh3 => processSenders bh3 (eraseKey bs sender) rest
          else processSenders bh2 (setKey bs sender pool2) rest

/-- `Pool::apply_block_inner` (`lib.rs` lines 252-319) on already-enriched
transactions.  `none` is a debug-mode abort (u64 overflow of
`self.block + 1`, or a failed `assert!`); `some (.error ())` is the
`bail!("block gap ...")` path; enrichment failures are out of scope since
the model takes `RichTransaction` inputs. -/
def Pool.apply_block_inner (p : Pool) (block : Nat) (txs : List RichTransaction) :
    Option (Except Unit Pool) :=
  if p.block + 1 > U64MAX then none
  else if p.block + 1 ≠ block then some (.error ())
  else
    match processSenders p.by_hash p.by_sender (txs.foldl groupStep []) with
    | none => none
    | some (bh, bs) => some (.ok { p with by_hash := bh, by_sender := bs })

/-- `Pool::apply_block` (`lib.rs` lines 321-331): on an inner error the
pool is erased (after a warning); either way `self.block` is set to the
applied block.  A `none` (panic) propagates. -/
def Pool.apply_block (p : Pool) (block : Nat) (txs : List RichTransaction) :
    Option Pool :=
  match p.apply_block_inner block txs with
  | none => none
  | some (.error _) => some { p.erase with block := block }
  | some (.ok p2) => some { p2 with block := block }

/-- The sender-dropping loop of `Pool::revert_block_inner`
(`lib.rs` lines 343-350). -/
def revertLoop (bh : List (Nat × RichTransaction)) (bs : List (Nat × AccountPool)) :
    List RichTransaction →
    Option (List (Nat × RichTransaction) × List (Nat × AccountPool))
  | [] => some (bh, bs)
  | t :: r =>
    match lookupKey bs t.sender with
    | none => revertLoop bh bs r
    | some pool =>
      match dropAll bh pool.txs with
      | none => none
      | some bh2 => revertLoop bh2 (eraseKey bs t.sender) r

/-- `Pool::revert_block_inner` (`lib.rs` lines 333-353).  The gap check
evaluates `self.block - 1` on a `u64`; with `self.block = 0` this
underflows and the call aborts in a debug build (`none`) before the gap
comparison is ever made. -/
def Pool.revert_block_inner (p : Pool) (block : Nat) (txs : List RichTransaction) :
    Option (Except Unit Pool) :=
  if p.block = 0 then none
  else if p.block - 1 ≠ block then some (.error ())
  else
    match revertLoop p.by_hash p.by_sender txs with
    | none => none
    | some (bh, bs) => some (.ok { p with by_hash := bh, by_sender := bs })

/-- `Pool::revert_block` (`lib.rs` lines 355-365). -/
def Pool.revert_block (p : Pool) (block : Nat) (txs : List RichTransaction) :
    Option Pool :=
  match p.revert_block_inner block txs with
  | none => none
  | some (.error _) => some { p.erase with block := block }
  | some (.ok p2) => some { p2 with block := block }

/-- The queue a sender currently holds (empty when the sender is absent). -/
def Pool.queueOf (p : Pool) (s : Nat) : List RichTransaction :=
  match lookupKey p.by_sender s with
  | some ap => ap.txs
  | none => []

/-- Spec invariant 4 (section 8): the hash index has exactly as many
entries as all per-sender queues together. -/
def Pool.sizeOk (p : Pool) : Prop :=
  p.by_hash.length = (p.by_sender.map (fun e => e.2.txs.length)).sum

instance (p : Pool) : Decidable p.sizeOk :=
  inferInstanceAs
    (Decidable (p.by_hash.length = (p.by_sender.map (fun e => e.2.txs.length)).sum))

/-- One half of spec invariant 1 (section 8): every transaction held in a
per-sender queue is indexed in `by_hash`. -/
def Pool.queuedIndexed (p : Pool) : Prop :=
  ∀ e ∈ p.by_sender, ∀ t ∈ e.2.txs, (lookupKey p.by_hash t.hash).isSome = true

instance (p : Pool) : Decidable p.queuedIndexed :=
  inferInstanceAs
    (Decidable (∀ e ∈ p.by_sender, ∀ t ∈ e.2.txs,
      (lookupKey p.by_hash t.hash).isSome = true))

/-- The confirmed nonce the import path compares against: the sender's
`nonce_offset` when pooled, otherwise the provider's reported nonce at the
current head (spec sections 4.4 and 8). -/
def confirmedNonce (provider : Nat → Nat → Option AccountInfo) (p : Pool)
    (s : Nat) : Option Nat :=
  match lookupKey p.by_sender s with
  | some ap => some ap.nonce_offset
  | none => (provider p.block s).map AccountInfo.nonce

/-! ### Association-list lemmas -/

theorem lookupKey_setKey_self {α : Type} (l : List (Nat × α)) (k : Nat) (v : α) :
    lookupKey (setKey l k v) k = some v := by
  induction l with
  | nil => simp [setKey, lookupKey]
  | cons hd tl ih =>
    obtain ⟨k2, w⟩ := hd
    by_cases h : k2 = k
    · simp [setKey, lookupKey, h]
    · simp [setKey, lookupKey, h, ih]

theorem lookupKey_setKey_ne {α : Type} (l : List (Nat × α)) (k k2 : Nat) (v : α)
    (h : k ≠ k2) : lookupKey (setKey l k2 v) k = lookupKey l k := by
  induction l with
  | nil => simp [setKey, lookupKey, Ne.symm h]
  | cons hd tl ih =>
    obtain ⟨k3, w⟩ := hd
    by_cases h3 : k3 = k2
    · subst h3
      simp [setKey, lookupKey, Ne.symm h]
    · by_cases hk : k3 = k
      · subst hk
        simp [setKey, lookupKey, h3]
      · simp [setKey, lookupKey, h3, hk, ih]

theorem lookupKey_eraseKey_ne {α : Type} (l : List (Nat × α)) (k k2 : Nat)
    (h : k ≠ k2) : lookupKey (eraseKey l k2) k = lookupKey l k := by
  induction l with
  | nil => simp [eraseKey, lookupKey]
  | cons hd tl ih =>
    obtain ⟨k3, w⟩ := hd
    by_cases h3 : k3 = k2
    · subst h3
      simp [eraseKey, lookupKey, Ne.symm h]
    · by_cases hk : k3 = k
      · subst hk
        simp [eraseKey, lookupKey, h3]
      · simp [eraseKey, lookupKey, h3, hk, ih]

theorem lookupKey_foldl_erase (ds : List RichTransaction)
    (l : List (Nat × RichTransaction)) (k : Nat)
    (h : ∀ t ∈ ds, t.hash ≠ k) :
    lookupKey (ds.foldl (fun bh t => eraseKey bh t.hash) l) k = lookupKey l k := by
  induction ds generalizing l with
  | nil => rfl
  | cons d ds ih =>
    simp only [List.foldl_cons]
    rw [ih _ fun t ht => h t (List.mem_cons_of_mem d ht),
      lookupKey_eraseKey_ne _ _ _ (Ne.symm (h d (List.mem_cons_self d ds)))]

theorem lookupKey_mem {α : Type} {l : List (Nat × α)} {k : Nat} {v : α}
    (h : lookupKey l k = some v) : (k, v) ∈ l := by
  induction l with
  | nil => simp [lookupKey] at h
  | cons hd tl ih =>
    obtain ⟨k2, w⟩ := hd
    by_cases h2 : k2 = k
    · subst h2
      simp [lookupKey] at h
      subst h
      exact List.mem_cons_self _ _
    · simp only [lookupKey, if_neg h2] at h
      exact List.mem_cons_of_mem _ (ih h)

/-! ### Small list facts used by the import proofs -/

theorem lt_of_get?_some {α : Type} : ∀ (l : List α) (n : Nat) (x : α),
    l.get? n = some x → n < l.length := by
  intro l
  induction l with
  | nil => intro n x h; simp [List.get?] at h
  | cons a r ih =>
    intro n x h
    cases n with
    | zero => simp
    | succ n => exact Nat.succ_lt_succ (ih n x h)

theorem mem_of_drop {α : Type} : ∀ (n : Nat) (l : List α) (x : α),
    x ∈ l.drop n → x ∈ l
  | 0, _, _, h => h
  | n + 1, [], x, h => by simp at h
  | n + 1, a :: r, x, h => List.mem_cons_of_mem a (mem_of_drop n r x h)

theorem set_drop {α : Type} (l : List α) :
    ∀ (i : Nat) (v : α), i < l.length → (l.set i v).drop i = v :: l.drop (i + 1) := by
  induction l with
  | nil => intro i v h; simp at h
  | cons a r ih =>
    intro i v h
    cases i with
    | zero => rfl
    | succ i => exact ih i v (Nat.lt_of_succ_lt_succ h)

theorem mem_of_splitAffordable_drop :
    ∀ (b : Nat) (l : List RichTransaction) (x : RichTransaction),
      x ∈ (splitAffordable b l).2 → x ∈ l := by
  intro b l
  induction l generalizing b with
  | nil => intro x hx; simp [splitAffordable] at hx
  | cons t r ih =>
    intro x hx
    by_cases hc : t.cost ≤ b
    · simp only [splitAffordable, if_pos hc] at hx
      exact List.mem_cons_of_mem t (ih (b - t.cost) x hx)
    · simp only [splitAffordable, if_neg hc] at hx
      exact hx

theorem mem_of_splitAffordable_drop_cons (b : Nat) (t : RichTransaction)
    (r : List RichTransaction) (x : RichTransaction) (hle : t.cost ≤ b)
    (hx : x ∈ (splitAffordable b (t :: r)).2) : x ∈ r := by
  simp only [splitAffordable, if_pos hle] at hx
  exact mem_of_splitAffordable_drop _ _ _ hx

/-- A successful (`Ok(true)`) run of the slot logic always leaves an entry
under the incoming transaction's hash: the commit inserts at that key and
the eviction loop only removes hashes of transactions that were already
queued. -/
theorem importSlot_ok_hash (q : Pool) (tx : RichTransaction) (ap : AccountPool)
    (p2 : Pool) (hq : ∀ t ∈ ap.txs, t.hash ≠ tx.hash)
    (h : importSlot q tx ap = (.ok true, p2)) :
    (lookupKey p2.by_hash tx.hash).isSome = true := by
  by_cases h1 : tx.nonce < ap.nonce_offset
  · simp [importSlot, h1] at h
  · by_cases h2 : tx.nonce - ap.nonce_offset ≤ ap.txs.length
    · cases heq : ap.txs[tx.nonce - ap.nonce_offset]? with
      | none =>
        simp [importSlot, h1, h2, heq] at h
        subst h
        simp [lookupKey_setKey_self]
      | some pooled =>
        by_cases h3 : tx.gas_price ≤ pooled.gas_price
        · simp [importSlot, h1, h2, heq, h3] at h
        · by_cases h4 : (ap.txs.take (tx.nonce - ap.nonce_offset)).foldl
              (fun b t => b - t.cost) ap.balance < tx.cost
          · simp [importSlot, h1, h2, heq, h3, h4] at h
          · simp [importSlot, h1, h2, heq, h3, h4] at h
            subst h
            have hd : ∀ t ∈ (splitAffordable
                ((ap.txs.take (tx.nonce - ap.nonce_offset)).foldl
                  (fun b t => b - t.cost) ap.balance)
                ((ap.txs.set (tx.nonce - ap.nonce_offset) tx).drop
                  (tx.nonce - ap.nonce_offset))).2, t.hash ≠ tx.hash := by
              intro t ht
              rw [set_drop _ _ _
                (lt_of_get?_some _ _ _ (by rw [List.get?_eq_getElem?]; exact heq))] at ht
              exact hq t (mem_of_drop _ _ _
                (mem_of_splitAffordable_drop_cons _ _ _ _ (Nat.le_of_not_lt h4) ht))
            simp only [lookupKey_foldl_erase _ _ _ hd, lookupKey_setKey_self,
              Option.isSome_some]
    · simp [importSlot, h1, h2] at h

/-! ### Claim theorems -/

/-- C8: Duplicate idempotence.  If `import(tx)` returns `Ok(true)` from a
state whose queued transactions are all indexed in `by_hash` (spec
invariant 1, which holds in every reachable state), then a second
`import(tx)` on the resulting state returns `Ok(false)` and leaves the
state exactly as it was after the first call: the nonce guard passes
again, the duplicate check hits the entry the first call inserted, and
the method returns before any further work. -/
theorem import_duplicate_idempotent (provider : Nat → Nat → Option AccountInfo)
    (p p2 : Pool) (tx : RichTransaction) (hinv : p.queuedIndexed)
    (h1 : Pool.importTx provider p tx = (.ok true, p2)) :
    Pool.importTx provider p2 tx = (.ok false, p2) := by
  by_cases hn : tx.nonce > U64MAX
  · simp [Pool.importTx, hn] at h1
  · cases hv : lookupKey p.by_hash tx.hash with
    | some w => simp [Pool.importTx, hn, hv] at h1
    | none =>
      have hsome : (lookupKey p2.by_hash tx.hash).isSome = true := by
        cases hs : lookupKey p.by_sender tx.sender with
        | some ap =>
          have hq : ∀ t ∈ ap.txs, t.hash ≠ tx.hash := by
            intro t ht hcontra
            have hall := hinv (tx.sender, ap) (lookupKey_mem hs) t ht
            rw [hcontra, hv] at hall
            simp at hall
          exact importSlot_ok_hash p tx ap p2 hq
            (by simpa [Pool.importTx, hn, hv, hs] using h1)
        | none =>
          cases hp : provider p.block tx.sender with
          | none => simp [Pool.importTx, hn, hv, hs, hp] at h1
          | some info =>
            exact importSlot_ok_hash _ tx ⟨info.nonce, info.balance, []⟩ p2
              (by intro t ht; simp at ht)
              (by simpa [Pool.importTx, hn, hv, hs, hp] using h1)
      obtain ⟨w, hw⟩ := Option.isSome_iff_exists.mp hsome
      simp [Pool.importTx, hn, hw]

/-- C8 witness: a concrete duplicate import through the empty pool. -/
def provA : Nat → Nat → Option AccountInfo := fun blk a =>
  if blk = 0 ∧ a = 10 then some ⟨1000, 5⟩ else none

/-- Scenario transaction of spec section 8: nonce 5, gas price 10,
gas limit 21, sender address 10, hash 101. -/
def txHappy : RichTransaction := ⟨5, 10, 21, 10, 101⟩

/-- The empty pool at block 0. -/
def pEmpty : Pool := ⟨0, [], []⟩

/-- The state the source leaves behind after importing `txHappy` into
`pEmpty`: the hash is indexed but the queue stays empty. -/
def pAfterHappy : Pool := ⟨0, [(101, txHappy)], [(10, ⟨5, 1000, []⟩)]⟩

theorem import_duplicate_idempotent_witness :
    Pool.queuedIndexed pEmpty ∧
    Pool.importTx provA pEmpty txHappy = (.ok true, pAfterHappy) ∧
    Pool.importTx provA pAfterHappy txHappy = (.ok false, pAfterHappy) :=
  ⟨by decide, rfl,
    import_duplicate_idempotent provA pEmpty pAfterHappy txHappy (by decide) rfl⟩

/-- An unaffordable transaction for the happy-path account: cost
`100 * 100 = 10000` exceeds the balance 1000. -/
def txPoor : RichTransaction := ⟨5, 100, 100, 10, 102⟩

/-- Post-state of importing `txPoor` into `pEmpty`: accepted anyway. -/
def pAfterPoor : Pool := ⟨0, [(102, txPoor)], [(10, ⟨5, 1000, []⟩)]⟩

/-- A pooled transaction at slot 5 (gas price 10), for the replacement
scenarios. -/
def txOld : RichTransaction := ⟨5, 10, 21, 10, 101⟩

/-- A higher-fee replacement for `txOld` (gas price 20, hash 103). -/
def txNew : RichTransaction := ⟨5, 20, 21, 10, 103⟩

/-- A same-fee replacement candidate for `txOld` (gas price 10). -/
def txEq : RichTransaction := ⟨5, 10, 21, 10, 104⟩

/-- A block transaction from the same sender with the same nonce as
`txOld` but a different hash (105), never pooled. -/
def txB : RichTransaction := ⟨5, 20, 21, 10, 105⟩

/-- A transaction whose nonce 4 is below the confirmed nonce 5. -/
def txStale : RichTransaction := ⟨4, 10, 21, 10, 106⟩

/-- A pool satisfying all spec invariants: sender 10 holds exactly
`[txOld]`, which is indexed under its hash. -/
def pRep : Pool := ⟨0, [(101, txOld)], [(10, ⟨5, 1000, [txOld]⟩)]⟩

/-- What the source produces when `txNew` replaces `txOld` in `pRep`:
the queue holds `txNew`, but `by_hash` keeps `txOld` under key 101 *and*
gains `txOld` (not `txNew`) under key 103. -/
def pRepAfter : Pool := ⟨0, [(101, txOld), (103, txOld)], [(10, ⟨5, 1000, [txNew]⟩)]⟩

/-- C1: Index consistency is *not* preserved by `import`.  Starting from
`pRep` (which satisfies the invariants), a successful replacing import of
`txNew` stores the *replaced* record `txOld` under `txNew`'s hash — the
local `tx` binding holds the old transaction after the `std::mem::swap`
at `lib.rs` line 214, and that is what line 229 inserts — and the old
hash 101 is never unindexed, so the entry under 103 violates
`t.hash == h` and `txOld` is referenced by `by_hash` while sitting in no
queue. -/
theorem import_replace_breaks_index :
    pRep.sizeOk ∧ pRep.queuedIndexed ∧
    Pool.importTx provA pRep txNew = (.ok true, pRepAfter) ∧
    lookupKey pRepAfter.by_hash txNew.hash = some txOld ∧
    txOld.hash ≠ txNew.hash ∧
    lookupKey pRepAfter.by_hash txOld.hash = some txOld :=
  ⟨by decide, by decide, rfl, rfl, by decide, rfl⟩

/-- C2: The size invariant is *not* preserved by `import`.  From the
empty pool (which satisfies `|by_hash| = Σ queue lengths` as `0 = 0`), a
successful appending import leaves `|by_hash| = 1` against a total queue
length of `0`: the append case of `Pool::import` (`lib.rs` line 229)
inserts into `by_hash` but never pushes onto the sender queue. -/
theorem import_append_breaks_size :
    pEmpty.sizeOk ∧
    Pool.importTx provA pEmpty txHappy = (.ok true, pAfterHappy) ∧
    ¬ pAfterHappy.sizeOk :=
  ⟨by decide, rfl, by decide⟩

/-- C3: Happy admission diverges from the code.  Importing
`tx{nonce 5, gas_price 10, gas_limit 21}` from sender 10 into the empty
pool (provider reports balance 1000, nonce 5 at block 0) does return
`Ok(true)` and does index the transaction under its hash, but the
sender's queue afterwards is `[]`, not `[tx]`: the append case never
pushes the transaction onto the queue. -/
theorem import_happy_queue_empty :
    Pool.importTx provA pEmpty txHappy = (.ok true, pAfterHappy) ∧
    lookupKey pAfterHappy.by_hash txHappy.hash = some txHappy ∧
    pAfterHappy.queueOf 10 = [] :=
  ⟨rfl, rfl, rfl⟩

/-- C4: Fee replacement strictness diverges from the code.  With `txOld`
(gas price 10) pooled at slot 5, importing the equal-fee `txEq` returns
`FeeTooLow` with the state untouched, as claimed; but importing the
higher-fee `txNew` with ample balance, while returning `Ok(true)`, leaves
`txOld.hash` in `by_hash` and maps `txNew.hash` to `txOld` rather than to
`txNew`. -/
theorem fee_replacement_divergence :
    Pool.importTx provA pRep txEq = (.error .FeeTooLow, pRep) ∧
    Pool.importTx provA pRep txNew = (.ok true, pRepAfter) ∧
    lookupKey pRepAfter.by_hash txOld.hash = some txOld ∧
    lookupKey pRepAfter.by_hash txNew.hash ≠ some txNew :=
  ⟨rfl, rfl, rfl, by decide⟩

/-- C5: Unaffordable admission diverges from the code.  `txPoor` sits at
the append position (offset 0 equals the empty queue's length) and its
cost 10000 exceeds the prefix balance 1000, yet `import` returns
`Ok(true)` and mutates the pool: the append case of `Pool::import` never
checks the incoming transaction's own cost (`lib.rs` lines 205-229 only
guard the replacement branch). -/
theorem import_unaffordable_append_ok :
    1000 < txPoor.cost ∧
    Pool.importTx provA pEmpty txPoor = (.ok true, pAfterPoor) ∧
    pAfterPoor.queueOf 10 = [] :=
  ⟨by decide, rfl, rfl⟩

/-- C6: An `apply_block` nonce-matching mismatch aborts instead of
dropping the sender.  In `pRep` sender 10's queue front `txOld` has nonce
5 equal to `nonce_offset`; applying block 1 containing the different
transaction `txB` (same sender, same nonce 5, hash 105 not pooled)
reaches `assert!(self.by_hash.remove(&tx.hash).is_some())` at `lib.rs`
line 293 *before* the hash comparison, the assertion fails because
`txB.hash` was never indexed, and the call panics (`none`) instead of
completing with the sender dropped and `self.block = 1`. -/
theorem apply_block_mismatch_panics :
    pRep.queueOf 10 = [txOld] ∧ txOld.nonce = 5 ∧ txB.nonce = 5 ∧
    txB.hash ≠ txOld.hash ∧
    Pool.apply_block pRep 1 [txB] = none :=
  ⟨rfl, rfl, rfl, by decide, rfl⟩

/-- C7 (amended): block-gap reset, away from the `u64` overflow edge.
For every pool with `self.block < u64::MAX` and every applied height
`b ≠ self.block + 1`, `apply_block(b, txs)` bails on the gap check before
touching any state, the outer handler erases both indexes, and
`self.block` is set to `b`. -/
theorem apply_block_gap_resets (p : Pool) (b : Nat) (txs : List RichTransaction)
    (hb : p.block < U64MAX) (hgap : b ≠ p.block + 1) :
    Pool.apply_block p b txs = some ⟨b, [], []⟩ := by
  have h1 : ¬ (p.block + 1 > U64MAX) := by omega
  have h2 : p.block + 1 ≠ b := fun h => hgap h.symm
  simp [Pool.apply_block, Pool.apply_block_inner, Pool.erase, h1, h2]

/-- C7 witness: spec scenario 9 — non-empty pool at block 0, applying
block 5 erases everything and sets the head to 5. -/
theorem apply_block_gap_resets_witness :
    pRep.block < U64MAX ∧ (5 : Nat) ≠ pRep.block + 1 ∧
    Pool.apply_block pRep 5 [] = some ⟨5, [], []⟩ :=
  ⟨by decide, by decide, apply_block_gap_resets pRep 5 [] (by decide) (by decide)⟩

/-- The same non-empty pool sitting at head height `u64::MAX`. -/
def pMax : Pool := ⟨U64MAX, [(101, txOld)], [(10, ⟨5, 1000, [txOld]⟩)]⟩

/-- C7 counterexample: at `self.block = u64::MAX` the gap check itself
computes `self.block + 1`, which overflows `u64` and aborts in a debug
build, so the claimed erase-and-reassign does not happen for this state
even though `0 ≠ self.block + 1`. -/
theorem apply_block_gap_overflow_panics :
    Pool.apply_block pMax 0 [] = none ∧
    Pool.apply_block pMax 0 [] ≠ some ⟨0, [], []⟩ :=
  ⟨rfl, by decide⟩

/-- C10: With `self.block = 0`, `Pool::revert_block` evaluates
`self.block - 1` on a `u64`, which underflows; in a debug build the call
aborts before the gap comparison, for any arguments, instead of taking
the reset-and-reassign path. -/
theorem revert_block_underflow (p : Pool) (b : Nat) (txs : List RichTransaction)
    (h : p.block = 0) : Pool.revert_block p b txs = none := by
  simp [Pool.revert_block, Pool.revert_block_inner, h]

/-- C10 witness: reverting anything on a fresh pool at block 0 aborts. -/
theorem revert_block_underflow_witness :
    pEmpty.block = 0 ∧ Pool.revert_block pEmpty 3 [] = none :=
  ⟨rfl, revert_block_underflow pEmpty 3 [] rfl⟩

/-- C9 counterexample: a stale import from a previously-unknown sender
returns `StaleTransaction` but does *not* leave the pool state unchanged —
resolving the sender inserted an empty `AccountPool` snapshot before the
nonce check ran, and the error paths never remove it. -/
theorem import_stale_new_sender_leaves_entry :
    Pool.importTx provA pEmpty txStale =
      (.error .StaleTransaction, ⟨0, [], [(10, ⟨5, 1000, []⟩)]⟩) ∧
    (⟨0, [], [(10, ⟨5, 1000, []⟩)]⟩ : Pool) ≠ pEmpty :=
  ⟨rfl, by decide⟩

/-- C9 (amended): stale rejection.  Importing a not-yet-pooled
transaction whose nonce is below the sender's confirmed nonce (the
`nonce_offset` of a pooled sender, or the provider's reported nonce for a
new one) returns `StaleTransaction`; the hash index, the head block and
every sender's queued transactions are unchanged, and for an
already-pooled sender the state is literally unchanged — but the first
contact with an unknown sender leaves behind an empty `AccountPool`
placeholder holding the provider snapshot. -/
theorem import_stale_rejected (provider : Nat → Nat → Option AccountInfo)
    (p : Pool) (tx : RichTransaction) (cn : Nat)
    (hn : tx.nonce ≤ U64MAX)
    (hv : lookupKey p.by_hash tx.hash = none)
    (hc : confirmedNonce provider p tx.sender = some cn)
    (hlt : tx.nonce < cn) :
    (Pool.importTx provider p tx).1 = .error .StaleTransaction ∧
    (Pool.importTx provider p tx).2.block = p.block ∧
    (Pool.importTx provider p tx).2.by_hash = p.by_hash ∧
    (∀ s, (Pool.importTx provider p tx).2.queueOf s = p.queueOf s) ∧
    ((lookupKey p.by_sender tx.sender).isSome = true →
      (Pool.importTx provider p tx).2 = p) := by
  have hngt : ¬ tx.nonce > U64MAX := not_lt.mpr hn
  cases hs : lookupKey p.by_sender tx.sender with
  | some ap =>
    have hcn : ap.nonce_offset = cn := by
      simpa [confirmedNonce, hs] using hc
    have hlt2 : tx.nonce < ap.nonce_offset := by rw [hcn]; exact hlt
    have himp : Pool.importTx provider p tx = (.error .StaleTransaction, p) := by
      simp [Pool.importTx, importSlot, hngt, hv, hs, hlt2]
    rw [himp]
    exact ⟨rfl, rfl, rfl, fun s => rfl, fun _ => rfl⟩
  | none =>
    cases hp : provider p.block tx.sender with
    | none => simp [confirmedNonce, hs, hp] at hc
    | some info =>
      have hcn : info.nonce = cn := by simpa [confirmedNonce, hs, hp] using hc
      have hlt2 : tx.nonce < info.nonce := by rw [hcn]; exact hlt
      have himp : Pool.importTx provider p tx =
          (.error .StaleTransaction,
            { p with
              by_sender :=
                setKey p.by_sender tx.sender ⟨info.nonce, info.balance, []⟩ }) := by
        simp [Pool.importTx, importSlot, hngt, hv, hs, hp, hlt2]
      rw [himp]
      refine ⟨rfl, rfl, rfl, fun s => ?_, fun hcontra => by simp [hs] at hcontra⟩
      by_cases hss : s = tx.sender
      · subst hss
        simp [Pool.queueOf, lookupKey_setKey_self, hs]
      · simp [Pool.queueOf, lookupKey_setKey_ne _ _ _ _ hss]

/-- The pool in which sender 10 is already tracked with confirmed nonce 5
and an empty queue. -/
def pStaleW : Pool := ⟨0, [], [(10, ⟨5, 1000, []⟩)]⟩

/-- C9 witness: the amended stale-rejection law at a concrete pooled
sender, where the state is literally unchanged. -/
theorem import_stale_rejected_witness :
    (txStale.nonce ≤ U64MAX ∧ lookupKey pStaleW.by_hash txStale.hash = none ∧
      confirmedNonce provA pStaleW txStale.sender = some 5 ∧ txStale.nonce < 5) ∧
    ((Pool.importTx provA pStaleW txStale).1 = .error .StaleTransaction ∧
      (Pool.importTx provA pStaleW txStale).2.block = pStaleW.block ∧
      (Pool.importTx provA pStaleW txStale).2.by_hash = pStaleW.by_hash ∧
      (∀ s, (Pool.importTx provA pStaleW txStale).2.queueOf s = pStaleW.queueOf s) ∧
      ((lookupKey pStaleW.by_sender txStale.sender).isSome = true →
        (Pool.importTx provA pStaleW txStale).2 = pStaleW)) :=
  ⟨⟨by decide, rfl, rfl, by decide⟩,
    import_stale_rejected provA pStaleW txStale 5 (by decide) rfl rfl (by decide)⟩
